import Mathlib

/-!
Verification of the node-red-contrib-solution-engine repository.

The repository contains two Node-RED nodes:
  - a read node (mtconnect-dataitem.js) that normalizes a host string,
    detects and caches the broker type, builds the MTConnect current URL,
    fetches the document and extracts one data item with a regex scan;
  - a write node (engine-set-dataitem) that selects a value from the
    inbound message, escapes it into an XML body and POSTs it.

Strings of the JavaScript source are modelled as List Char.  The regex
scans of the source use only patterns of the shape LITERAL[^c]*c, whose
greedy matching is deterministic per start position, so they are embedded
as leftmost scans over the suffixes of the subject string.
-/

/-- The double-quote character (written by code point to keep source lines plain). -/
def dq : Char := Char.ofNat 34

/-- The apostrophe character (written by code point to keep source lines plain). -/
def apos : Char := Char.ofNat 39

/-! ## Host normalization (mtconnect-dataitem.js, normalizeHost) -/

/-- Model of the JS replace of the trailing-slash run: drops every trailing slash. -/
def stripTrailingSlashes (s : List Char) : List Char :=
  (s.reverse.dropWhile (fun c => c = '/')).reverse

/-- The literal https scheme marker stripped by normalizeHost. -/
def httpsSchemeLit : List Char := ['h', 't', 't', 'p', 's', ':', '/', '/']

/-- The literal http scheme marker stripped by normalizeHost. -/
def httpSchemeLit : List Char := ['h', 't', 't', 'p', ':', '/', '/']

/-- The protocol string stored for plain http. -/
def httpProtoLit : List Char := ['h', 't', 't', 'p', ':']

/-- The protocol string stored for https. -/
def httpsProtoLit : List Char := ['h', 't', 't', 'p', 's', ':']

/-- Result record of normalizeHost. -/
structure HostInfo where
  hostname : List Char
  protocol : List Char
  isHttps : Bool
  deriving DecidableEq

/-- Model of normalizeHost from mtconnect-dataitem.js: empty input maps to the
empty hostname, an https or http scheme marker is stripped (setting the
protocol), and trailing slashes are removed. -/
def normalizeHost (host : List Char) : HostInfo :=
  if host = [] then ⟨[], httpProtoLit, false⟩
  else if httpsSchemeLit.isPrefixOf host then
    ⟨stripTrailingSlashes (host.drop 8), httpsProtoLit, true⟩
  else if httpSchemeLit.isPrefixOf host then
    ⟨stripTrailingSlashes (host.drop 7), httpProtoLit, false⟩
  else
    ⟨stripTrailingSlashes host, httpProtoLit, false⟩

/-! ## URL construction (mtconnect-dataitem.js, buildUrl) -/

/-- Model of the JS replace removing the leading and trailing slash runs of the path. -/
def cleanPathOf (p : List Char) : List Char :=
  stripTrailingSlashes (p.dropWhile (fun c => c = '/'))

/-- Decimal text of the port number, as the JS template literal renders it. -/
def natDigits (n : Nat) : List Char := (Nat.repr n).toList

/-- Model of buildUrl from mtconnect-dataitem.js. -/
def buildUrl (host : List Char) (port : Nat) (path : List Char)
    (isSolutionEngine : Bool) (protocol : List Char) : List Char :=
  let baseUrl := protocol ++ ('/' :: '/' :: []) ++ host ++ (':' :: []) ++ natDigits port
  if isSolutionEngine then
    baseUrl ++ ("/api/v6/mtc/current").toList
  else if !path.isEmpty then
    baseUrl ++ ('/' :: []) ++ cleanPathOf path ++ ("/current").toList
  else
    baseUrl ++ ("/current").toList

/-! ## Broker type detection (mtconnect-dataitem.js, detectBrokerType) -/

/-- Substring containment, the model of the JS String.includes test. -/
def containsSub (needle : List Char) : List Char → Bool
  | [] => needle.isEmpty
  | c :: t => needle.isPrefixOf (c :: t) || containsSub needle t

/-- Outcome of the detection probe request as seen by its callbacks. -/
inductive ProbeResult where
  | success (status : Nat) (body : List Char)
  | connError
  | timeout
  deriving DecidableEq

/-- Model of detectBrokerType: the boolean passed to the callback for each
probe outcome.  A 200 response whose body contains MTConnectStreams and not
MTConnectError classifies as Solution Engine; every other outcome does not. -/
def detectBrokerType (r : ProbeResult) : Bool :=
  match r with
  | .success status body =>
      status == 200 &&
      containsSub (("MTConnectStreams").toList) body &&
      !containsSub (("MTConnectError").toList) body
  | .connError => false
  | .timeout => false

/-! ## Broker type cache (mtconnect-dataitem.js, module state and input handler) -/

/-- Cache keys are the strings hostname:port of the source. -/
abbrev CacheKey := List Char

/-- The broker type cache, modelled as an association list in insertion order. -/
abbrev BrokerCache := List (CacheKey × Bool)

/-- Lookup of brokerTypeCache[cacheKey]. -/
def cacheLookup : BrokerCache → CacheKey → Option Bool
  | [], _ => none
  | (k, v) :: rest, key => if k = key then some v else cacheLookup rest key

/-- The cache key template literal hostname:port. -/
def cacheKeyOf (hostname : List Char) (port : Nat) : CacheKey :=
  hostname ++ (':' :: []) ++ natDigits port

/-- What one read invocation does to the cache: the resulting cache, the number
of detection probes issued, and the verdict used for the fetch URL. -/
structure ReadInvokeResult where
  cache : BrokerCache
  probes : Nat
  verdict : Bool
  deriving DecidableEq

/-- Model of the cache branch of the read node input handler: a cache hit uses
the cached verdict with no probe; a miss issues one probe, stores the verdict
and uses it.  The probe argument is the outcome the transport would deliver. -/
def readInvoke (cache : BrokerCache) (key : CacheKey) (probe : ProbeResult) :
    ReadInvokeResult :=
  match cacheLookup cache key with
  | some v => ⟨cache, 0, v⟩
  | none => ⟨(key, detectBrokerType probe) :: cache, 1, detectBrokerType probe⟩

/-- Cache state after a sequence of read invocations. -/
def runReads (cache : BrokerCache) : List (CacheKey × ProbeResult) → BrokerCache
  | [] => cache
  | (k, p) :: rest => runReads (readInvoke cache k p).cache rest

/-- Number of detection probes issued for one particular key over a sequence of
read invocations starting from a given cache. -/
def probesForKey (cache : BrokerCache) (key : CacheKey) :
    List (CacheKey × ProbeResult) → Nat
  | [] => 0
  | (k, p) :: rest =>
      (if k = key then (readInvoke cache k p).probes else 0) +
        probesForKey (readInvoke cache k p).cache key rest

/-! ## XML data item extraction (mtconnect-dataitem.js, findDataItemInXml)

The source matches three regex shapes, all of the form
LITERAL[^c]*c(...)... with character-class stars that cannot cross their
excluded character, so greedy matching is deterministic at each start
position and the leftmost JS match is the first suffix where the
deterministic matcher succeeds. -/

/-- A character of the JS regex class backslash-w. -/
def isWordChar (c : Char) : Bool := c.isAlphanum || c = '_'

/-- First occurrence split: s = before ++ lit ++ after with the earliest
possible before. -/
def splitAtLit (lit : List Char) : List Char → Option (List Char × List Char)
  | [] => if lit.isPrefixOf ([] : List Char) then some ([], []) else none
  | c :: t =>
      if lit.isPrefixOf (c :: t) then some ([], (c :: t).drop lit.length)
      else
        match splitAtLit lit t with
        | some (b, a) => some (c :: b, a)
        | none => none

/-- Matcher for the simple value pattern at one start position: the literal,
then non-gt characters, a gt, the captured non-lt run, and a lt. -/
def tryValueAt (lit : List Char) (s : List Char) : Option (List Char) :=
  if lit.isPrefixOf s then
    match (s.drop lit.length).dropWhile (fun c => c ≠ '>') with
    | _ :: after =>
        match after.dropWhile (fun c => c ≠ '<') with
        | _ :: _ => some (after.takeWhile (fun c => c ≠ '<'))
        | [] => none
    | [] => none
  else none

/-- Leftmost match of the simple value pattern. -/
def scanValue (lit : List Char) : List Char → Option (List Char)
  | [] => none
  | c :: t =>
      match tryValueAt lit (c :: t) with
      | some v => some v
      | none => scanValue lit t

/-- Matcher for the full element pattern at one start position: a lt, one or
more word characters, non-gt characters, the literal, non-gt characters and a
closing gt; returns the whole matched tag text.  (The id literal is assumed
free of the gt character, as it is for every id the source can query.) -/
def tryElemAt (lit : List Char) (s : List Char) : Option (List Char) :=
  match s with
  | a :: c :: rest =>
      if a = '<' && isWordChar c then
        match splitAtLit lit rest with
        | some (before, after) =>
            if before.all (fun ch => ch ≠ '>') then
              match after.dropWhile (fun ch => ch ≠ '>') with
              | _ :: _ =>
                  some ('<' :: c :: before ++ lit ++
                    after.takeWhile (fun ch => ch ≠ '>') ++ ('>' :: []))
              | [] => none
            else none
        | none => none
      else none
  | _ => none

/-- Leftmost match of the full element pattern. -/
def scanElem (lit : List Char) : List Char → Option (List Char)
  | [] => none
  | c :: t =>
      match tryElemAt lit (c :: t) with
      | some e => some e
      | none => scanElem lit t

/-- Matcher for an attribute pattern at one start position: the literal
attribute opener, the captured non-quote run, and a closing quote. -/
def tryAttrAt (lit : List Char) (s : List Char) : Option (List Char) :=
  if lit.isPrefixOf s then
    match (s.drop lit.length).dropWhile (fun c => c ≠ dq) with
    | _ :: _ => some ((s.drop lit.length).takeWhile (fun c => c ≠ dq))
    | [] => none
  else none

/-- Leftmost match of an attribute pattern. -/
def scanAttr (lit : List Char) : List Char → Option (List Char)
  | [] => none
  | c :: t =>
      match tryAttrAt lit (c :: t) with
      | some v => some v
      | none => scanAttr lit t

/-- The literal the source builds for the id: dataItemId= then the quoted id. -/
def dataItemLit (dataItemId : List Char) : List Char :=
  ("dataItemId=").toList ++ dq :: dataItemId ++ dq :: []

/-- Attribute opener literal: the attribute name, an equals sign and a quote. -/
def attrLit (attrName : List Char) : List Char :=
  attrName ++ '=' :: dq :: []

/-- Model of the JS String.trim on the captured value. -/
def trimWs (s : List Char) : List Char :=
  ((s.dropWhile Char.isWhitespace).reverse.dropWhile Char.isWhitespace).reverse

/-- Model of dataItemId.split(dot).pop(): the last dot-separated segment. -/
def lastDotSegment (s : List Char) : List Char :=
  (s.reverse.takeWhile (fun c => c ≠ '.')).reverse

/-- A found data item: the fields the source populates when found is true. -/
structure FoundItem where
  value : List Char
  timestamp : Option (List Char)
  sequence : Option (List Char)
  name : List Char
  deriving DecidableEq

/-- Model of findDataItemInXml: none models the found:false return.  The JS
falsy test on the name attribute makes an empty explicit name fall back to the
last dot-separated segment of the id, exactly as name-or-fallback does. -/
def findDataItemInXml (xml : List Char) (dataItemId : List Char) : Option FoundItem :=
  match scanValue (dataItemLit dataItemId) xml with
  | none => none
  | some rawValue =>
      let attrs :=
        match scanElem (dataItemLit dataItemId) xml with
        | some elemText =>
            (scanAttr (attrLit (("timestamp").toList)) elemText,
             scanAttr (attrLit (("sequence").toList)) elemText,
             scanAttr (attrLit (("name").toList)) elemText)
        | none => (none, none, none)
      let nm :=
        match attrs.2.2 with
        | some n => if n.isEmpty then lastDotSegment dataItemId else n
        | none => lastDotSegment dataItemId
      some ⟨trimWs rawValue, attrs.1, attrs.2.1, nm⟩

/-! ## Read pipeline response handling (mtconnect-dataitem.js, fetchDataItem) -/

/-- Outcome of the read fetch as seen by its callbacks (the source installs no
timeout on this request). -/
inductive ReadHttpOutcome where
  | response (body : List Char)
  | netError (errMessage : List Char)
  deriving DecidableEq

/-- What the read pipeline emits for one fetch outcome. -/
structure ReadEmitted where
  sentMessage : Bool
  errorReported : Bool
  deriving DecidableEq

/-- Model of the fetchDataItem callbacks: a response is scanned and a message
is sent whether or not the item is found (the not-found case warns rather than
errors); a transport error only reports through node.error, sending nothing. -/
def fetchDataItemHandle (dataItemId : List Char) (o : ReadHttpOutcome) : ReadEmitted :=
  match o with
  | .response body =>
      match findDataItemInXml body dataItemId with
      | some _ => ⟨true, false⟩
      | none => ⟨true, false⟩
  | .netError _ => ⟨false, true⟩

/-! ## XML escaping (engine-set-dataitem, escapeXml) -/

/-- Model of the JS global single-character replace: every occurrence of the
character is replaced by the given string. -/
def replaceChar (c : Char) (r : List Char) : List Char → List Char
  | [] => []
  | x :: t => if x = c then r ++ replaceChar c r t else x :: replaceChar c r t

/-- The amp entity text. -/
def ampEnt : List Char := ['&', 'a', 'm', 'p', ';']

/-- The lt entity text. -/
def ltEnt : List Char := ['&', 'l', 't', ';']

/-- The gt entity text. -/
def gtEnt : List Char := ['&', 'g', 't', ';']

/-- The quot entity text. -/
def quotEnt : List Char := ['&', 'q', 'u', 'o', 't', ';']

/-- The apos entity text. -/
def aposEnt : List Char := ['&', 'a', 'p', 'o', 's', ';']

/-- Model of escapeXml: the five sequential global replaces of the source, in
source order (amp first, then lt, gt, quot, apos). -/
def escapeXml (s : List Char) : List Char :=
  replaceChar apos aposEnt
    (replaceChar dq quotEnt
      (replaceChar '>' gtEnt
        (replaceChar '<' ltEnt
          (replaceChar '&' ampEnt s))))

/-! ## Write node input handling (engine-set-dataitem, SolutionEngineSetDataItemNode) -/

/-- A JavaScript value as far as the write node distinguishes them. -/
inductive JsVal where
  | undef
  | null
  | str (s : List Char)
  | num (n : Int)
  deriving DecidableEq

/-- JS truthiness for the modelled values. -/
def truthy : JsVal → Bool
  | .undef => false
  | .null => false
  | .str s => !s.isEmpty
  | .num n => n != 0

/-- The JS logical-or defaulting idiom a or b. -/
def jsOr (a b : JsVal) : JsVal := if truthy a then a else b

/-- JS String(v) coercion for the modelled values. -/
def jsString : JsVal → List Char
  | .undef => ("undefined").toList
  | .null => ("null").toList
  | .str s => s
  | .num n => (toString n).toList

/-- The inbound message fields the write node reads. -/
structure WriteMsg where
  host : JsVal
  dataItemId : JsVal
  payload : JsVal
  value : JsVal
  deriving DecidableEq

/-- The node configuration fields the write node reads. -/
structure WriteConfig where
  host : JsVal
  dataItemId : JsVal
  deriving DecidableEq

/-- The XML request body template of the source, with both interpolations
escaped and the value stringified. -/
def xmlBody (dataItemId : List Char) (value : JsVal) : List Char :=
  ("<DataItems>\n    <DataItem dataItemId=").toList ++
    dq :: escapeXml dataItemId ++
    dq :: (">\n        <Value>").toList ++
    escapeXml (jsString value) ++
    ("</Value>\n    </DataItem>\n</DataItems>").toList

/-- What the write node input handler decides before any transport activity. -/
inductive WriteAction where
  | errNoHost
  | errNoDataItemId
  | errNoValue
  | sendRequest (body : List Char) (value : JsVal) (dataItemId : List Char)
  deriving DecidableEq

/-- Model of the input handler of the write node up to the point the request
is issued: defaulting of host and id, selection of the value (msg.value when
it is not undefined, else msg.payload), the three guard checks in source
order, and the request body construction. -/
def setDataItemPrepare (cfg : WriteConfig) (msg : WriteMsg) : WriteAction :=
  let rawHost := jsOr msg.host cfg.host
  let dataItemId := jsOr msg.dataItemId cfg.dataItemId
  let value := if msg.value ≠ JsVal.undef then msg.value else msg.payload
  if !truthy rawHost then WriteAction.errNoHost
  else if !truthy dataItemId then WriteAction.errNoDataItemId
  else if value = JsVal.undef ∨ value = JsVal.null then WriteAction.errNoValue
  else WriteAction.sendRequest (xmlBody (jsString dataItemId) value) value (jsString dataItemId)

/-- True exactly for the three guard failures, each of which the source
reports through node.error with a missing-input message. -/
def isMissingInputErr : WriteAction → Bool
  | .errNoHost => true
  | .errNoDataItemId => true
  | .errNoValue => true
  | .sendRequest _ _ _ => false

/-- True exactly when the action issues the HTTP request. -/
def issuesHttpRequest : WriteAction → Bool
  | .sendRequest _ _ _ => true
  | _ => false

/-! ## Write request completion (engine-set-dataitem, response and error callbacks) -/

/-- Outcome of the write request as seen by its callbacks. -/
inductive WriteHttpOutcome where
  | response (status : Nat) (body : List Char)
  | netError (errMessage : List Char)
  | timedOut
  deriving DecidableEq

/-- The structured payload the write node places on the outgoing message. -/
structure WritePayload where
  success : Bool
  dataItemId : List Char
  value : JsVal
  statusCode : Option Nat
  error : Option (List Char)
  deriving DecidableEq

/-- What the write node emits for one request outcome: the payload sent
downstream, if any, and whether node.error was called. -/
structure WriteEmitted where
  sent : Option WritePayload
  errorReported : Bool
  deriving DecidableEq

/-- Model of the write node callbacks: a 2xx response sends a success payload,
a non-2xx response reports an error and sends a failure payload carrying the
status and body, a transport error reports and sends a failure payload
carrying the message, and the timeout handler reports but sends nothing. -/
def setDataItemComplete (dataItemId : List Char) (value : JsVal) :
    WriteHttpOutcome → WriteEmitted
  | .response status body =>
      if 200 ≤ status ∧ status < 300 then
        ⟨some ⟨true, dataItemId, value, some status, none⟩, false⟩
      else
        ⟨some ⟨false, dataItemId, value, some status, some body⟩, true⟩
  | .netError errMessage =>
      ⟨some ⟨false, dataItemId, value, none, some errMessage⟩, true⟩
  | .timedOut => ⟨none, true⟩

/-! ## Helper definitions for the escaping proofs and concrete documents -/

/-- Per-character view of the composed escape chain: what one input character
contributes to the escaped output. -/
def escChar (c : Char) : List Char :=
  if c = '&' then ampEnt
  else if c = '<' then ltEnt
  else if c = '>' then gtEnt
  else if c = dq then quotEnt
  else if c = apos then aposEnt
  else c :: []

/-- Character-wise escape of a whole string. -/
def escAll : List Char → List Char
  | [] => []
  | c :: t => escChar c ++ escAll t

/-- True when the list starts with the tail of one of the five entities the
escape emits (the part after the ampersand). -/
def entityTailB (t : List Char) : Bool :=
  (['a', 'm', 'p', ';'] : List Char).isPrefixOf t ||
  (['l', 't', ';'] : List Char).isPrefixOf t ||
  (['g', 't', ';'] : List Char).isPrefixOf t ||
  (['q', 'u', 'o', 't', ';'] : List Char).isPrefixOf t ||
  (['a', 'p', 'o', 's', ';'] : List Char).isPrefixOf t

/-- Every ampersand in the list begins one of the five XML entities. -/
def ampOk : List Char → Bool
  | [] => true
  | c :: t => (if c = '&' then entityTailB t else true) && ampOk t

/-- The concrete document of the extraction test sentence of the spec. -/
def docXY : List Char :=
  ("<DataItem dataItemId=\"X.Y\" timestamp=\"T\" sequence=\"5\">42</DataItem>").toList

/-! ## Theorems -/

/-- C3: a probe classifies as Solution Engine exactly when the response has
status 200, its body contains MTConnectStreams and does not contain
MTConnectError; connection errors and timeouts (and any non-200 status or
other body) classify as false. -/
theorem detectBrokerType_spec (status : Nat) (body : List Char) :
    (detectBrokerType (ProbeResult.success status body) = true ↔
      (status = 200 ∧ containsSub (("MTConnectStreams").toList) body = true ∧
        containsSub (("MTConnectError").toList) body = false)) ∧
    detectBrokerType ProbeResult.connError = false ∧
    detectBrokerType ProbeResult.timeout = false := by
  refine ⟨?_, rfl, rfl⟩
  simp [detectBrokerType, Bool.and_eq_true, beq_iff_eq, Bool.not_eq_true',
    and_assoc]

/-- C6: buildUrl yields the api/v6/mtc current URL for a Solution Engine, the
slash-trimmed custom path with /current for a generic broker with a non-empty
path, and the root /current otherwise. -/
theorem buildUrl_spec (host path protocol : List Char) (port : Nat) :
    buildUrl host port path true protocol =
      protocol ++ ('/' :: '/' :: []) ++ host ++ (':' :: []) ++ natDigits port ++
        ("/api/v6/mtc/current").toList ∧
    (path ≠ [] →
      buildUrl host port path false protocol =
        protocol ++ ('/' :: '/' :: []) ++ host ++ (':' :: []) ++ natDigits port ++
          ('/' :: []) ++ cleanPathOf path ++ ("/current").toList) ∧
    buildUrl host port [] false protocol =
      protocol ++ ('/' :: '/' :: []) ++ host ++ (':' :: []) ++ natDigits port ++
        ("/current").toList := by
  refine ⟨rfl, ?_, rfl⟩
  intro hp
  cases path with
  | nil => exact absurd rfl hp
  | cons c t => rfl

/-- C6 witness: the generic-broker example of the spec at host h, port 5000
and path /foo/. -/
theorem buildUrl_spec_witness :
    buildUrl (('h') :: []) 5000 ('/' :: 'f' :: 'o' :: 'o' :: '/' :: []) false (("http:").toList) =
      (("http:").toList) ++ ('/' :: '/' :: []) ++ (('h') :: []) ++ (':' :: []) ++ natDigits 5000 ++
        ('/' :: []) ++ cleanPathOf ('/' :: 'f' :: 'o' :: 'o' :: '/' :: []) ++ ("/current").toList :=
  (buildUrl_spec (('h') :: []) ('/' :: 'f' :: 'o' :: 'o' :: '/' :: []) (("http:").toList) 5000).2.1
    (by decide)

/-- C2 counterexample: on the test document for query id X.Y the extractor
returns name Y (the last dot-separated segment of the id), not X.Y as the
claim states. -/
theorem findDataItemInXml_name_refutes :
    ¬ ((findDataItemInXml docXY (("X.Y").toList)).map FoundItem.name =
        some (("X.Y").toList)) := by
  decide

/-- C2 amended: on the test document for query id X.Y the extractor returns
found with value 42, timestamp T, sequence 5 and name Y, the last
dot-separated segment of the id. -/
theorem findDataItemInXml_concrete :
    findDataItemInXml docXY (("X.Y").toList) =
      some ⟨("42").toList, some (("T").toList), some (("5").toList), ("Y").toList⟩ := by
  decide

/-- C1 counterexample: a read-pipeline transport error does not result in a
forwarded result message; the error callback of fetchDataItem only reports
through node.error and done, sending nothing downstream. -/
theorem read_transport_error_sends_nothing :
    ¬ ((fetchDataItemHandle (("EngineInfo.CPUTemp").toList)
        (ReadHttpOutcome.netError (("connect ECONNREFUSED").toList))).sentMessage = true) := by
  decide

/-- C1 amended: the write pipeline emits a structured failure result message
for HttpError and NetworkError outcomes (and reports the error), but its
Timeout outcome sends nothing; the read pipeline sends a result message for
every response (found or not) but sends nothing on a transport error. -/
theorem error_result_message_emission (dataItemId body errMessage : List Char)
    (value : JsVal) (status : Nat) (hs : ¬ (200 ≤ status ∧ status < 300)) :
    (setDataItemComplete dataItemId value (WriteHttpOutcome.response status body)).sent =
      some ⟨false, dataItemId, value, some status, some body⟩ ∧
    (setDataItemComplete dataItemId value (WriteHttpOutcome.response status body)).errorReported
      = true ∧
    (setDataItemComplete dataItemId value (WriteHttpOutcome.netError errMessage)).sent =
      some ⟨false, dataItemId, value, none, some errMessage⟩ ∧
    (setDataItemComplete dataItemId value (WriteHttpOutcome.netError errMessage)).errorReported
      = true ∧
    (setDataItemComplete dataItemId value WriteHttpOutcome.timedOut).sent = none ∧
    (fetchDataItemHandle dataItemId (ReadHttpOutcome.response body)).sentMessage = true ∧
    (fetchDataItemHandle dataItemId (ReadHttpOutcome.netError errMessage)).sentMessage = false := by
  refine ⟨?_, ?_, rfl, rfl, rfl, ?_, rfl⟩
  · simp [setDataItemComplete, hs]
  · simp [setDataItemComplete, hs]
  · rcases hfd : findDataItemInXml body dataItemId with _ | it <;>
      simp [fetchDataItemHandle, hfd]

/-- C1 witness: the amended emission behavior at a concrete 404 outcome. -/
theorem error_result_message_emission_witness :
    (setDataItemComplete (('a') :: []) (JsVal.str (('v') :: []))
        (WriteHttpOutcome.response 404 (('b') :: []))).sent =
      some ⟨false, ('a') :: [], JsVal.str (('v') :: []), some 404, some (('b') :: [])⟩ ∧
    (setDataItemComplete (('a') :: []) (JsVal.str (('v') :: []))
        (WriteHttpOutcome.response 404 (('b') :: []))).errorReported = true ∧
    (setDataItemComplete (('a') :: []) (JsVal.str (('v') :: []))
        (WriteHttpOutcome.netError (('e') :: []))).sent =
      some ⟨false, ('a') :: [], JsVal.str (('v') :: []), none, some (('e') :: [])⟩ ∧
    (setDataItemComplete (('a') :: []) (JsVal.str (('v') :: []))
        (WriteHttpOutcome.netError (('e') :: []))).errorReported = true ∧
    (setDataItemComplete (('a') :: []) (JsVal.str (('v') :: []))
        WriteHttpOutcome.timedOut).sent = none ∧
    (fetchDataItemHandle (('a') :: []) (ReadHttpOutcome.response (('b') :: []))).sentMessage
      = true ∧
    (fetchDataItemHandle (('a') :: []) (ReadHttpOutcome.netError (('e') :: []))).sentMessage
      = false :=
  error_result_message_emission (('a') :: []) (('b') :: []) (('e') :: [])
    (JsVal.str (('v') :: [])) 404 (by decide)

/-- A cache hit leaves the cache unchanged, issues no probe and returns the
cached verdict. -/
theorem readInvoke_hit (cache : BrokerCache) (key : CacheKey) (p : ProbeResult)
    (v : Bool) (hv : cacheLookup cache key = some v) :
    readInvoke cache key p = ⟨cache, 0, v⟩ := by
  simp [readInvoke, hv]

/-- A read invocation never removes or overwrites an existing cache entry. -/
theorem readInvoke_preserves (cache : BrokerCache) (k key : CacheKey)
    (p : ProbeResult) (v : Bool) (hv : cacheLookup cache key = some v) :
    cacheLookup (readInvoke cache k p).cache key = some v := by
  unfold readInvoke
  cases hk : cacheLookup cache k with
  | some w => exact hv
  | none =>
      by_cases hkey : k = key
      · subst hkey
        rw [hk] at hv
        exact absurd hv (by simp)
      · simpa [cacheLookup, hkey] using hv

/-- An existing entry survives any sequence of read invocations. -/
theorem runReads_preserves (steps : List (CacheKey × ProbeResult)) :
    ∀ (cache : BrokerCache) (key : CacheKey) (v : Bool),
      cacheLookup cache key = some v →
      cacheLookup (runReads cache steps) key = some v := by
  induction steps with
  | nil => intro cache key v hv; exact hv
  | cons s rest ih =>
      intro cache key v hv
      obtain ⟨k, p⟩ := s
      exact ih _ key v (readInvoke_preserves cache k key p v hv)

/-- Once a key is cached, a sequence of read invocations issues no probe at
all for that key. -/
theorem probesForKey_zero (steps : List (CacheKey × ProbeResult)) :
    ∀ (cache : BrokerCache) (key : CacheKey) (v : Bool),
      cacheLookup cache key = some v →
      probesForKey cache key steps = 0 := by
  induction steps with
  | nil => intro cache key v _; rfl
  | cons s rest ih =>
      intro cache key v hv
      obtain ⟨k, p⟩ := s
      have hpres := readInvoke_preserves cache k key p v hv
      by_cases hk : k = key
      · subst hk
        rw [probesForKey, readInvoke_hit cache k p v hv]
        simpa using ih _ k v hv
      · rw [probesForKey]
        simp only [hk, if_false]
        simpa using ih _ key v hpres

/-- C4: once a hostname:port key is cached, a read invocation for it reuses
the cached verdict, changes nothing and issues no probe, the entry survives
every later sequence of reads with zero further probes for that key; and a
missing key is created by one invocation with the probe verdict. -/
theorem brokerTypeCache_write_once (hostname : List Char) (port : Nat)
    (cache : BrokerCache) (steps : List (CacheKey × ProbeResult)) (v : Bool)
    (p : ProbeResult) :
    (cacheLookup cache (cacheKeyOf hostname port) = some v →
      readInvoke cache (cacheKeyOf hostname port) p = ⟨cache, 0, v⟩ ∧
      cacheLookup (runReads cache steps) (cacheKeyOf hostname port) = some v ∧
      probesForKey cache (cacheKeyOf hostname port) steps = 0) ∧
    (cacheLookup cache (cacheKeyOf hostname port) = none →
      cacheLookup (readInvoke cache (cacheKeyOf hostname port) p).cache
          (cacheKeyOf hostname port) = some (detectBrokerType p)) := by
  constructor
  · intro hv
    exact ⟨readInvoke_hit cache _ p v hv,
      runReads_preserves steps cache _ v hv,
      probesForKey_zero steps cache _ v hv⟩
  · intro hn
    simp [readInvoke, hn, cacheLookup]

/-- C4 witness: a concrete cached key, two later reads (one for the same key,
one for another), zero probes for the cached key. -/
theorem brokerTypeCache_write_once_witness :
    (cacheLookup ((cacheKeyOf (('h') :: []) 5000, true) :: [])
        (cacheKeyOf (('h') :: []) 5000) = some true →
      readInvoke ((cacheKeyOf (('h') :: []) 5000, true) :: [])
          (cacheKeyOf (('h') :: []) 5000) ProbeResult.timeout =
        ⟨(cacheKeyOf (('h') :: []) 5000, true) :: [], 0, true⟩ ∧
      cacheLookup
          (runReads ((cacheKeyOf (('h') :: []) 5000, true) :: [])
            ((cacheKeyOf (('h') :: []) 5000, ProbeResult.connError) ::
              (cacheKeyOf (('g') :: []) 5000, ProbeResult.connError) :: []))
          (cacheKeyOf (('h') :: []) 5000) = some true ∧
      probesForKey ((cacheKeyOf (('h') :: []) 5000, true) :: [])
          (cacheKeyOf (('h') :: []) 5000)
          ((cacheKeyOf (('h') :: []) 5000, ProbeResult.connError) ::
            (cacheKeyOf (('g') :: []) 5000, ProbeResult.connError) :: []) = 0) ∧
    (cacheLookup ((cacheKeyOf (('h') :: []) 5000, true) :: [])
        (cacheKeyOf (('h') :: []) 5000) = none →
      cacheLookup
          (readInvoke ((cacheKeyOf (('h') :: []) 5000, true) :: [])
            (cacheKeyOf (('h') :: []) 5000) ProbeResult.timeout).cache
          (cacheKeyOf (('h') :: []) 5000) = some (detectBrokerType ProbeResult.timeout)) :=
  brokerTypeCache_write_once (('h') :: []) 5000
    ((cacheKeyOf (('h') :: []) 5000, true) :: [])
    ((cacheKeyOf (('h') :: []) 5000, ProbeResult.connError) ::
      (cacheKeyOf (('g') :: []) 5000, ProbeResult.connError) :: [])
    true ProbeResult.timeout

/-- C8: when msg.payload and msg.value are both absent (undefined or null),
the write pipeline issues no HTTP request and every branch it can take is one
of the MissingInput error reports. -/
theorem setDataItemPrepare_missing_value (cfg : WriteConfig) (msg : WriteMsg)
    (hp : msg.payload = JsVal.undef ∨ msg.payload = JsVal.null)
    (hv : msg.value = JsVal.undef ∨ msg.value = JsVal.null) :
    issuesHttpRequest (setDataItemPrepare cfg msg) = false ∧
    isMissingInputErr (setDataItemPrepare cfg msg) = true := by
  have hval : (if msg.value ≠ JsVal.undef then msg.value else msg.payload) = JsVal.undef ∨
      (if msg.value ≠ JsVal.undef then msg.value else msg.payload) = JsVal.null := by
    rcases hv with hv | hv
    · simpa [hv] using hp
    · simp [hv]
  simp only [setDataItemPrepare]
  rcases hval with hval | hval <;> rw [hval] <;> split_ifs with h1 h2 h3 <;>
    first
      | exact ⟨rfl, rfl⟩
      | exact absurd (Or.inl rfl) h3
      | exact absurd (Or.inr rfl) h3

/-- C8 witness: an entirely empty message against an empty configuration. -/
theorem setDataItemPrepare_missing_value_witness :
    issuesHttpRequest (setDataItemPrepare ⟨JsVal.undef, JsVal.undef⟩
      ⟨JsVal.undef, JsVal.undef, JsVal.undef, JsVal.undef⟩) = false ∧
    isMissingInputErr (setDataItemPrepare ⟨JsVal.undef, JsVal.undef⟩
      ⟨JsVal.undef, JsVal.undef, JsVal.undef, JsVal.undef⟩) = true :=
  setDataItemPrepare_missing_value ⟨JsVal.undef, JsVal.undef⟩
    ⟨JsVal.undef, JsVal.undef, JsVal.undef, JsVal.undef⟩ (Or.inl rfl) (Or.inl rfl)

/-- C9: with host and id present, the value that is validated, serialized and
echoed is msg.value whenever it is defined and msg.payload only otherwise; a
defined msg.value wins over any msg.payload, and a null msg.value triggers
the missing-value error regardless of the payload. -/
theorem setDataItemPrepare_value_selection (cfg : WriteConfig) (msg : WriteMsg)
    (hh : truthy (jsOr msg.host cfg.host) = true)
    (hid : truthy (jsOr msg.dataItemId cfg.dataItemId) = true) :
    (msg.value ≠ JsVal.undef → msg.value ≠ JsVal.null →
      setDataItemPrepare cfg msg =
        WriteAction.sendRequest
          (xmlBody (jsString (jsOr msg.dataItemId cfg.dataItemId)) msg.value)
          msg.value (jsString (jsOr msg.dataItemId cfg.dataItemId))) ∧
    (msg.value = JsVal.undef → msg.payload ≠ JsVal.undef → msg.payload ≠ JsVal.null →
      setDataItemPrepare cfg msg =
        WriteAction.sendRequest
          (xmlBody (jsString (jsOr msg.dataItemId cfg.dataItemId)) msg.payload)
          msg.payload (jsString (jsOr msg.dataItemId cfg.dataItemId))) ∧
    (msg.value = JsVal.null → setDataItemPrepare cfg msg = WriteAction.errNoValue) := by
  refine ⟨?_, ?_, ?_⟩
  · intro hvu hvn
    simp [setDataItemPrepare, hh, hid, hvu, hvn]
  · intro hvu hpu hpn
    simp [setDataItemPrepare, hh, hid, hvu, hpu, hpn]
  · intro hvn
    simp [setDataItemPrepare, hh, hid, hvn]

/-- C9 witness: a message carrying both a payload and a value; the value wins. -/
theorem setDataItemPrepare_value_selection_witness :
    setDataItemPrepare ⟨JsVal.str (('h') :: []), JsVal.str (('i') :: [])⟩
        ⟨JsVal.undef, JsVal.undef, JsVal.str (('p') :: []), JsVal.str (('v') :: [])⟩ =
      WriteAction.sendRequest
        (xmlBody (jsString (jsOr
            (WriteMsg.dataItemId ⟨JsVal.undef, JsVal.undef, JsVal.str (('p') :: []),
              JsVal.str (('v') :: [])⟩)
            (WriteConfig.dataItemId ⟨JsVal.str (('h') :: []), JsVal.str (('i') :: [])⟩)))
          (JsVal.str (('v') :: [])))
        (JsVal.str (('v') :: []))
        (jsString (jsOr
          (WriteMsg.dataItemId ⟨JsVal.undef, JsVal.undef, JsVal.str (('p') :: []),
            JsVal.str (('v') :: [])⟩)
          (WriteConfig.dataItemId ⟨JsVal.str (('h') :: []), JsVal.str (('i') :: [])⟩))) :=
  (setDataItemPrepare_value_selection
      ⟨JsVal.str (('h') :: []), JsVal.str (('i') :: [])⟩
      ⟨JsVal.undef, JsVal.undef, JsVal.str (('p') :: []), JsVal.str (('v') :: [])⟩
      (by decide) (by decide)).1 (by decide) (by decide)

/-- The single-character global replace distributes over append. -/
theorem replaceChar_append (c : Char) (r a b : List Char) :
    replaceChar c r (a ++ b) = replaceChar c r a ++ replaceChar c r b := by
  induction a with
  | nil => rfl
  | cons x t ih =>
      by_cases hx : x = c <;> simp [replaceChar, hx, ih, List.append_assoc]

/-- The lt pass leaves the amp entity unchanged. -/
theorem rcLtAmp : replaceChar '<' ltEnt ampEnt = ampEnt := rfl

/-- The gt pass leaves the amp entity unchanged. -/
theorem rcGtAmp : replaceChar '>' gtEnt ampEnt = ampEnt := rfl

/-- The quot pass leaves the amp entity unchanged. -/
theorem rcDqAmp : replaceChar dq quotEnt ampEnt = ampEnt := rfl

/-- The apos pass leaves the amp entity unchanged. -/
theorem rcApAmp : replaceChar apos aposEnt ampEnt = ampEnt := rfl

/-- The gt pass leaves the lt entity unchanged. -/
theorem rcGtLt : replaceChar '>' gtEnt ltEnt = ltEnt := rfl

/-- The quot pass leaves the lt entity unchanged. -/
theorem rcDqLt : replaceChar dq quotEnt ltEnt = ltEnt := rfl

/-- The apos pass leaves the lt entity unchanged. -/
theorem rcApLt : replaceChar apos aposEnt ltEnt = ltEnt := rfl

/-- The quot pass leaves the gt entity unchanged. -/
theorem rcDqGt : replaceChar dq quotEnt gtEnt = gtEnt := rfl

/-- The apos pass leaves the gt entity unchanged. -/
theorem rcApGt : replaceChar apos aposEnt gtEnt = gtEnt := rfl

/-- The apos pass leaves the quot entity unchanged. -/
theorem rcApQuot : replaceChar apos aposEnt quotEnt = quotEnt := rfl

/-- Head step of the single-character global replace. -/
theorem replaceChar_cons (c : Char) (r : List Char) (x : Char) (t : List Char) :
    replaceChar c r (x :: t) = (if x = c then r else x :: []) ++ replaceChar c r t := by
  by_cases hx : x = c <;> simp [replaceChar, hx]

/-- The double quote is none of the three bracket characters. -/
theorem dqNeAmp : ¬ (dq = '&') := by decide

/-- The double quote is not the lt character. -/
theorem dqNeLt : ¬ (dq = '<') := by decide

/-- The double quote is not the gt character. -/
theorem dqNeGt : ¬ (dq = '>') := by decide

/-- The apostrophe is not the amp character. -/
theorem aposNeAmp : ¬ (apos = '&') := by decide

/-- The apostrophe is not the lt character. -/
theorem aposNeLt : ¬ (apos = '<') := by decide

/-- The apostrophe is not the gt character. -/
theorem aposNeGt : ¬ (apos = '>') := by decide

/-- The apostrophe is not the double quote. -/
theorem aposNeDq : ¬ (apos = dq) := by decide

/-- One step of the composed escape chain: the head character contributes its
entity (or itself) and the chain continues on the tail. -/
theorem escapeXml_cons (c : Char) (t : List Char) :
    escapeXml (c :: t) = escChar c ++ escapeXml t := by
  by_cases h1 : c = '&'
  · subst h1
    simp only [escapeXml, escChar, replaceChar_cons, replaceChar_append,
      rcLtAmp, rcGtAmp, rcDqAmp, rcApAmp, if_pos rfl, eq_self_iff_true, if_true]
  · by_cases h2 : c = '<'
    · subst h2
      simp only [escapeXml, escChar, replaceChar_cons, replaceChar_append,
        rcGtLt, rcDqLt, rcApLt, if_pos rfl, if_neg h1, List.singleton_append,
        eq_self_iff_true, if_true]
    · by_cases h3 : c = '>'
      · subst h3
        simp only [escapeXml, escChar, replaceChar_cons, replaceChar_append,
          rcDqGt, rcApGt, if_pos rfl, if_neg h1, if_neg h2, List.singleton_append,
          eq_self_iff_true, if_true]
      · by_cases h4 : c = dq
        · subst h4
          simp only [escapeXml, escChar, replaceChar_cons, replaceChar_append,
            rcApQuot, if_pos rfl, if_neg dqNeAmp, if_neg dqNeLt, if_neg dqNeGt,
            List.singleton_append, eq_self_iff_true, if_true]
        · by_cases h5 : c = apos
          · subst h5
            simp only [escapeXml, escChar, replaceChar_cons, replaceChar_append,
              if_pos rfl, if_neg aposNeAmp, if_neg aposNeLt, if_neg aposNeGt,
              if_neg aposNeDq, List.singleton_append, eq_self_iff_true, if_true]
          · simp only [escapeXml, escChar, replaceChar_cons, replaceChar_append,
              if_neg h1, if_neg h2, if_neg h3, if_neg h4, if_neg h5,
              List.singleton_append]

/-- The five sequential replaces act character-wise. -/
theorem escapeXml_eq_escAll (s : List Char) : escapeXml s = escAll s := by
  induction s with
  | nil => rfl
  | cons c t ih => rw [escapeXml_cons, escAll, ih]

/-- Prepending the amp entity preserves the entity discipline. -/
theorem ampOk_ampEnt (r : List Char) : ampOk (ampEnt ++ r) = ampOk r := by
  simp [ampOk, entityTailB, ampEnt, List.isPrefixOf]

/-- Prepending the lt entity preserves the entity discipline. -/
theorem ampOk_ltEnt (r : List Char) : ampOk (ltEnt ++ r) = ampOk r := by
  simp [ampOk, entityTailB, ltEnt, List.isPrefixOf]

/-- Prepending the gt entity preserves the entity discipline. -/
theorem ampOk_gtEnt (r : List Char) : ampOk (gtEnt ++ r) = ampOk r := by
  simp [ampOk, entityTailB, gtEnt, List.isPrefixOf]

/-- Prepending the quot entity preserves the entity discipline. -/
theorem ampOk_quotEnt (r : List Char) : ampOk (quotEnt ++ r) = ampOk r := by
  simp [ampOk, entityTailB, quotEnt, List.isPrefixOf]

/-- Prepending the apos entity preserves the entity discipline. -/
theorem ampOk_aposEnt (r : List Char) : ampOk (aposEnt ++ r) = ampOk r := by
  simp [ampOk, entityTailB, aposEnt, List.isPrefixOf]

/-- Prepending a non-ampersand character preserves the entity discipline. -/
theorem ampOk_single (c : Char) (hc : ¬ (c = '&')) (r : List Char) :
    ampOk (c :: r) = ampOk r := by
  simp [ampOk, hc]

/-- The contribution of any character keeps the entity discipline. -/
theorem ampOk_escChar_append (c : Char) (r : List Char) :
    ampOk (escChar c ++ r) = ampOk r := by
  unfold escChar
  split_ifs with h1 h2 h3 h4 h5
  · exact ampOk_ampEnt r
  · exact ampOk_ltEnt r
  · exact ampOk_gtEnt r
  · exact ampOk_quotEnt r
  · exact ampOk_aposEnt r
  · exact ampOk_single c h1 r

/-- The lt character never occurs in a character contribution. -/
theorem lt_not_mem_escChar (c : Char) : ¬ ('<' ∈ escChar c) := by
  unfold escChar
  split_ifs with h1 h2 h3 h4 h5
  · decide
  · decide
  · decide
  · decide
  · decide
  · simp only [List.mem_singleton]
    exact fun he => h2 he.symm

/-- The gt character never occurs in a character contribution. -/
theorem gt_not_mem_escChar (c : Char) : ¬ ('>' ∈ escChar c) := by
  unfold escChar
  split_ifs with h1 h2 h3 h4 h5
  · decide
  · decide
  · decide
  · decide
  · decide
  · simp only [List.mem_singleton]
    exact fun he => h3 he.symm

/-- The double quote never occurs in a character contribution. -/
theorem dq_not_mem_escChar (c : Char) : ¬ (dq ∈ escChar c) := by
  unfold escChar
  split_ifs with h1 h2 h3 h4 h5
  · decide
  · decide
  · decide
  · decide
  · decide
  · simp only [List.mem_singleton]
    exact fun he => h4 he.symm

/-- The apostrophe never occurs in a character contribution. -/
theorem apos_not_mem_escChar (c : Char) : ¬ (apos ∈ escChar c) := by
  unfold escChar
  split_ifs with h1 h2 h3 h4 h5
  · decide
  · decide
  · decide
  · decide
  · decide
  · simp only [List.mem_singleton]
    exact fun he => h5 he.symm

/-- C7 counterexample: escaping the one-character string made of an ampersand
produces the amp entity, whose text does contain a raw ampersand, so the
escaped output is not free of every one of the five characters. -/
theorem escapeXml_amp_in_output : ('&') ∈ escapeXml (('&') :: []) := by decide

/-- C7 amended: the escaped output of any string contains no raw lt, gt,
double quote or apostrophe, and every ampersand in it begins one of the five
XML entities the escape emits. -/
theorem escapeXml_output_escaped (s : List Char) :
    (¬ ('<' ∈ escapeXml s)) ∧ (¬ ('>' ∈ escapeXml s)) ∧ (¬ (dq ∈ escapeXml s)) ∧
      (¬ (apos ∈ escapeXml s)) ∧ ampOk (escapeXml s) = true := by
  simp only [escapeXml_eq_escAll]
  induction s with
  | nil => exact ⟨by simp [escAll], by simp [escAll], by simp [escAll], by simp [escAll], rfl⟩
  | cons c t ih =>
      obtain ⟨ih1, ih2, ih3, ih4, ih5⟩ := ih
      refine ⟨?_, ?_, ?_, ?_, ?_⟩
      · simp only [escAll, List.mem_append]
        exact fun hm => hm.elim (lt_not_mem_escChar c) ih1
      · simp only [escAll, List.mem_append]
        exact fun hm => hm.elim (gt_not_mem_escChar c) ih2
      · simp only [escAll, List.mem_append]
        exact fun hm => hm.elim (dq_not_mem_escChar c) ih3
      · simp only [escAll, List.mem_append]
        exact fun hm => hm.elim (apos_not_mem_escChar c) ih4
      · rw [escAll, ampOk_escChar_append]
        exact ih5

/-- Characters free of the five specials contribute themselves. -/
theorem escAll_clean (s : List Char) :
    (∀ c ∈ s, ¬ (c = '&') ∧ ¬ (c = '<') ∧ ¬ (c = '>') ∧ ¬ (c = dq) ∧ ¬ (c = apos)) →
      escAll s = s := by
  induction s with
  | nil => intro _; rfl
  | cons c t ih =>
      intro hs
      obtain ⟨h1, h2, h3, h4, h5⟩ := hs c (by simp)
      have ht := ih (fun x hx => hs x (by simp [hx]))
      simp [escAll, escChar, h1, h2, h3, h4, h5, ht]

/-- C10: on a string containing none of the five special characters, the XML
escape is the identity, so such ids and values are embedded verbatim. -/
theorem escapeXml_identity_on_clean (s : List Char)
    (hs : ∀ c ∈ s, ¬ (c = '&') ∧ ¬ (c = '<') ∧ ¬ (c = '>') ∧ ¬ (c = dq) ∧ ¬ (c = apos)) :
    escapeXml s = s := by
  rw [escapeXml_eq_escAll]
  exact escAll_clean s hs

/-- C10 witness: the escape leaves the clean string abc unchanged. -/
theorem escapeXml_identity_on_clean_witness :
    escapeXml ('a' :: 'b' :: 'c' :: []) = 'a' :: 'b' :: 'c' :: [] :=
  escapeXml_identity_on_clean ('a' :: 'b' :: 'c' :: []) (by decide)

/-- Dropping leading slashes skips a prepended slash run. -/
theorem dropWhile_slash_replicate (n : Nat) (l : List Char) :
    (List.replicate n '/' ++ l).dropWhile (fun c => c = '/') =
      l.dropWhile (fun c => c = '/') := by
  induction n with
  | zero => rfl
  | succ m ih => simp only [List.replicate_succ, List.cons_append, List.dropWhile_cons,
      decide_eq_true_eq, if_pos rfl, eq_self_iff_true, if_true, ih]

/-- Appended trailing slashes vanish under the trailing-slash strip. -/
theorem stripTrailingSlashes_append_slashes (h : List Char) (n : Nat) :
    stripTrailingSlashes (h ++ List.replicate n '/') = stripTrailingSlashes h := by
  unfold stripTrailingSlashes
  rw [List.reverse_append, List.reverse_replicate, dropWhile_slash_replicate]

/-- A list is a prefix of itself extended by anything. -/
theorem isPrefixOf_append_self (a b : List Char) : a.isPrefixOf (a ++ b) = true := by
  induction a with
  | nil => simp
  | cons c t ih => rw [List.cons_append, List.isPrefixOf_cons₂]; simp [ih]

/-- The left half of a prefix is itself a prefix. -/
theorem isPrefixOf_append_left (a b : List Char) :
    ∀ x : List Char, (a ++ b).isPrefixOf x = true → a.isPrefixOf x = true := by
  induction a with
  | nil => intro x _; simp
  | cons c t ih =>
      intro x hab
      cases x with
      | nil => rw [List.cons_append] at hab; simp at hab
      | cons y ys =>
          rw [List.cons_append, List.isPrefixOf_cons₂, Bool.and_eq_true] at hab
          rw [List.isPrefixOf_cons₂, Bool.and_eq_true]
          exact ⟨hab.1, ih ys hab.2⟩

/-- A slash-free pattern that prefixes a string extended by trailing slashes
already prefixes the string itself. -/
theorem isPrefixOf_slash_extension (pat : List Char) :
    ∀ (h : List Char) (n : Nat), pat.all (fun c => c != '/') = true →
      pat.isPrefixOf (h ++ List.replicate n '/') = true → pat.isPrefixOf h = true := by
  induction pat with
  | nil => intro h n _ _; simp
  | cons p ps ih =>
      intro h n hall hpre
      rw [List.all_cons, Bool.and_eq_true] at hall
      obtain ⟨hp, hps⟩ := hall
      cases h with
      | nil =>
          exfalso
          cases n with
          | zero => simp at hpre
          | succ m =>
              rw [List.nil_append, List.replicate_succ, List.isPrefixOf_cons₂,
                Bool.and_eq_true] at hpre
              rw [beq_iff_eq] at hpre
              rw [bne_iff_ne] at hp
              exact hp hpre.1
      | cons y ys =>
          rw [List.cons_append, List.isPrefixOf_cons₂, Bool.and_eq_true] at hpre
          rw [List.isPrefixOf_cons₂, Bool.and_eq_true]
          exact ⟨hpre.1, ih ys n hps hpre.2⟩

/-- The https scheme marker is its protocol text plus two slashes. -/
theorem httpsScheme_decomp : httpsProtoLit ++ ('/' :: '/' :: []) = httpsSchemeLit := rfl

/-- The http scheme marker is its protocol text plus two slashes. -/
theorem httpScheme_decomp : httpProtoLit ++ ('/' :: '/' :: []) = httpSchemeLit := rfl

/-- The https protocol text contains no slash. -/
theorem httpsProto_no_slash : httpsProtoLit.all (fun c => c != '/') = true := by decide

/-- The http protocol text contains no slash. -/
theorem httpProto_no_slash : httpProtoLit.all (fun c => c != '/') = true := by decide

/-- A string starting with the http marker never starts with the https marker. -/
theorem https_not_prefix_of_http_app (x : List Char) :
    httpsSchemeLit.isPrefixOf (httpSchemeLit ++ x) = false := by
  simp [httpsSchemeLit, httpSchemeLit, List.isPrefixOf]

/-- Dropping seven characters removes exactly the http marker. -/
theorem drop7_httpScheme (x : List Char) : (httpSchemeLit ++ x).drop 7 = x := rfl

/-- Dropping eight characters removes exactly the https marker. -/
theorem drop8_httpsScheme (x : List Char) : (httpsSchemeLit ++ x).drop 8 = x := rfl

/-- Normalization of a host carrying neither scheme marker only strips the
trailing slashes. -/
theorem normalizeHost_no_scheme (h : List Char)
    (h1 : httpsSchemeLit.isPrefixOf h = false) (h2 : httpSchemeLit.isPrefixOf h = false) :
    normalizeHost h = ⟨stripTrailingSlashes h, httpProtoLit, false⟩ := by
  by_cases he : h = []
  · subst he; rfl
  · simp [normalizeHost, he, h1, h2]

/-- Normalization after the http marker strips the marker and trailing slashes. -/
theorem normalizeHost_http_app (x : List Char) :
    normalizeHost (httpSchemeLit ++ x) = ⟨stripTrailingSlashes x, httpProtoLit, false⟩ := by
  have hne : ¬ (httpSchemeLit ++ x = []) := by simp [httpSchemeLit]
  simp only [normalizeHost]
  rw [if_neg hne]
  rw [if_neg (by simp [https_not_prefix_of_http_app] :
    ¬ (httpsSchemeLit.isPrefixOf (httpSchemeLit ++ x) = true))]
  rw [if_pos (isPrefixOf_append_self httpSchemeLit x)]
  rw [drop7_httpScheme]

/-- Normalization after the https marker strips the marker and trailing slashes. -/
theorem normalizeHost_https_app (x : List Char) :
    normalizeHost (httpsSchemeLit ++ x) = ⟨stripTrailingSlashes x, httpsProtoLit, true⟩ := by
  have hne : ¬ (httpsSchemeLit ++ x = []) := by simp [httpsSchemeLit]
  simp only [normalizeHost]
  rw [if_neg hne]
  rw [if_pos (isPrefixOf_append_self httpsSchemeLit x)]
  rw [drop8_httpsScheme]

/-- C5 counterexample: for the host string https://x with empty scheme prefix
and zero trailing slashes the claim demands useTls = false, but normalizeHost
strips the scheme marker inside the host and reports https. -/
theorem normalizeHost_claim_refuted :
    ¬ ((normalizeHost (("https://x").toList ++ List.replicate 0 '/')).isHttps = false) := by
  decide

/-- C5 amended: for every host string that does not itself begin with the
text http: or https:, prefixing a scheme marker and appending trailing
slashes leaves the normalized hostname unchanged, and the https flag is true
exactly when the https marker was prefixed. -/
theorem normalizeHost_scheme_slash_invariance (h : List Char) (n : Nat)
    (h1 : httpProtoLit.isPrefixOf h = false)
    (h2 : httpsProtoLit.isPrefixOf h = false) :
    ((normalizeHost (h ++ List.replicate n '/')).hostname = (normalizeHost h).hostname ∧
      (normalizeHost (h ++ List.replicate n '/')).isHttps = false) ∧
    ((normalizeHost (httpSchemeLit ++ h ++ List.replicate n '/')).hostname =
        (normalizeHost h).hostname ∧
      (normalizeHost (httpSchemeLit ++ h ++ List.replicate n '/')).isHttps = false) ∧
    ((normalizeHost (httpsSchemeLit ++ h ++ List.replicate n '/')).hostname =
        (normalizeHost h).hostname ∧
      (normalizeHost (httpsSchemeLit ++ h ++ List.replicate n '/')).isHttps = true) := by
  have hnps : httpsSchemeLit.isPrefixOf h = false := by
    cases hx : httpsSchemeLit.isPrefixOf h with
    | false => rfl
    | true =>
        have hcp : httpsProtoLit.isPrefixOf h = true := by
          apply isPrefixOf_append_left httpsProtoLit ('/' :: '/' :: [])
          rw [httpsScheme_decomp]
          exact hx
        rw [hcp] at h2
        exact Bool.noConfusion h2
  have hnph : httpSchemeLit.isPrefixOf h = false := by
    cases hx : httpSchemeLit.isPrefixOf h with
    | false => rfl
    | true =>
        have hcp : httpProtoLit.isPrefixOf h = true := by
          apply isPrefixOf_append_left httpProtoLit ('/' :: '/' :: [])
          rw [httpScheme_decomp]
          exact hx
        rw [hcp] at h1
        exact Bool.noConfusion h1
  have hext2 : httpsProtoLit.isPrefixOf (h ++ List.replicate n '/') = false := by
    cases hx : httpsProtoLit.isPrefixOf (h ++ List.replicate n '/') with
    | false => rfl
    | true =>
        have := isPrefixOf_slash_extension httpsProtoLit h n httpsProto_no_slash hx
        rw [this] at h2
        exact Bool.noConfusion h2
  have hext1 : httpProtoLit.isPrefixOf (h ++ List.replicate n '/') = false := by
    cases hx : httpProtoLit.isPrefixOf (h ++ List.replicate n '/') with
    | false => rfl
    | true =>
        have := isPrefixOf_slash_extension httpProtoLit h n httpProto_no_slash hx
        rw [this] at h1
        exact Bool.noConfusion h1
  have hexts : httpsSchemeLit.isPrefixOf (h ++ List.replicate n '/') = false := by
    cases hx : httpsSchemeLit.isPrefixOf (h ++ List.replicate n '/') with
    | false => rfl
    | true =>
        have hcp : httpsProtoLit.isPrefixOf (h ++ List.replicate n '/') = true := by
          apply isPrefixOf_append_left httpsProtoLit ('/' :: '/' :: [])
          rw [httpsScheme_decomp]
          exact hx
        rw [hcp] at hext2
        exact Bool.noConfusion hext2
  have hexth : httpSchemeLit.isPrefixOf (h ++ List.replicate n '/') = false := by
    cases hx : httpSchemeLit.isPrefixOf (h ++ List.replicate n '/') with
    | false => rfl
    | true =>
        have hcp : httpProtoLit.isPrefixOf (h ++ List.replicate n '/') = true := by
          apply isPrefixOf_append_left httpProtoLit ('/' :: '/' :: [])
          rw [httpScheme_decomp]
          exact hx
        rw [hcp] at hext1
        exact Bool.noConfusion hext1
  have hbase := normalizeHost_no_scheme h hnps hnph
  have hplain := normalizeHost_no_scheme (h ++ List.replicate n '/') hexts hexth
  refine ⟨⟨?_, ?_⟩, ⟨?_, ?_⟩, ⟨?_, ?_⟩⟩
  · rw [hplain, hbase]
    exact stripTrailingSlashes_append_slashes h n
  · rw [hplain]
  · rw [List.append_assoc, normalizeHost_http_app, hbase]
    exact stripTrailingSlashes_append_slashes h n
  · rw [List.append_assoc, normalizeHost_http_app]
  · rw [List.append_assoc, normalizeHost_https_app, hbase]
    exact stripTrailingSlashes_append_slashes h n
  · rw [List.append_assoc, normalizeHost_https_app]

/-- C5 witness: the amended invariance at the host example.com with two
trailing slashes. -/
theorem normalizeHost_scheme_slash_invariance_witness :
    ((normalizeHost (("example.com").toList ++ List.replicate 2 '/')).hostname =
        (normalizeHost (("example.com").toList)).hostname ∧
      (normalizeHost (("example.com").toList ++ List.replicate 2 '/')).isHttps = false) ∧
    ((normalizeHost (httpSchemeLit ++ ("example.com").toList ++ List.replicate 2 '/')).hostname =
        (normalizeHost (("example.com").toList)).hostname ∧
      (normalizeHost (httpSchemeLit ++ ("example.com").toList ++ List.replicate 2 '/')).isHttps =
        false) ∧
    ((normalizeHost (httpsSchemeLit ++ ("example.com").toList ++ List.replicate 2 '/')).hostname =
        (normalizeHost (("example.com").toList)).hostname ∧
      (normalizeHost (httpsSchemeLit ++ ("example.com").toList ++ List.replicate 2 '/')).isHttps =
        true) :=
  normalizeHost_scheme_slash_invariance (("example.com").toList) 2 (by decide) (by decide)
